import Mathlib

/-!
Verification of the MDChef checkpoint/resume core.

The development shallowly embeds the three source files of the repository:

* `trajCheckpoint.py` — `checkpoint_frame` / `checkpoint_write`
  (the CheckpointStore);
* `main.py` — `menu` (`check_cases`, `min_beg_frame`), `recipe`
  (`runinloop`, `runafterloop`) and `restaurant.serve`
  (the TaskRegistry / Task / PassCoordinator);
* `recipes.py` — an analysis plug-in, opaque to the core; modelled as an
  abstract per-unit callable.

The source is Python 2, so the embedding fixes the Python-2 semantics the
code relies on: `None` compares strictly below every integer, dictionary
values are iterated in a stable order (modelled as association lists), and
`int(s)` parses the decimal numeral produced by `str`/`format`.
File-system effects are made explicit: a file is passed as its content
(`Option` marks existence) and `sys.exit` / uncaught exceptions become the
`Except.error` branch.
-/

namespace MDChef

/-! ### trajCheckpoint.py -/

/-- Digit-accumulation loop of Python `int()`: consume decimal digits left to
right into an accumulator; any non-digit character makes the parse fail
(Python raises `ValueError`). -/
def parseNatFold : List Char → Nat → Option Nat
  | [], acc => some acc
  | c :: cs, acc =>
    if c.isDigit then parseNatFold cs (acc * 10 + (c.toNat - 48)) else none

/-- Python `int(s)` on a plain decimal literal, possibly with a leading minus
sign: the only shapes this program ever writes or reads. An empty string or a
bare sign is a parse failure. -/
def pyint (s : String) : Option Int :=
  match s.data with
  | [] => none
  | c :: cs =>
    if c = '-' then
      if cs.isEmpty then none else (parseNatFold cs 0).map (fun n => -(n : Int))
    else (parseNatFold (c :: cs) 0).map (fun n => (n : Int))

/-- `checkpoint_write` (trajCheckpoint.py:75-79): the committed checkpoint file
content is `'{0:}'.format(frame)`, i.e. the decimal numeral of the frame
number; the file is overwritten, so this string is the whole content. -/
def checkpoint_write (frame : Int) : String := Int.repr frame

/-- Guard of trajCheckpoint.py:67,
`if bf >= ef and (bf != None and ef != None): sys.exit(...)`.
Under Python-2 mixed comparison `None` is below every `int`, but the explicit
`bf != None and ef != None` conjunct means the exit fires exactly when both
frames are integers and `bf >= ef`. -/
def range_exit_check (bf ef : Option Int) : Bool :=
  match bf, ef with
  | some b, some e => e ≤ b
  | _, _ => false

/-- `checkpoint_frame` (trajCheckpoint.py:28-73). Inputs are the observable
file-system state: whether the data (output) file exists, and the checkpoint
file content as its list of lines (`none` = file absent). Mirrors the source:
`bf, ef, fex = None, None, False`; if the data file exists, `fex = True` and
`bf = int(readlines()[0]) + 1` (a missing file, an empty file, or an
unparsable first line raise: `IOError` / `IndexError` / `ValueError`);
`ef` is never assigned. The line-67 guard runs before returning
`(bf, ef, fex)`. -/
def checkpoint_frame (outputExists : Bool) (cptLines : Option (List String)) :
    Except String (Option Int × Option Int × Bool) :=
  let bf : Option Int := none
  let ef : Option Int := none
  if outputExists then
    match cptLines with
    | none => Except.error "IOError: checkpoint file not found"
    | some lines =>
      match lines with
      | [] => Except.error "IndexError: list index out of range"
      | l :: _ =>
        match pyint l with
        | none => Except.error "ValueError: invalid literal for int()"
        | some v =>
          let bf := some (v + 1)
          if range_exit_check bf ef then
            Except.error "Stop Signalled: Beginning frame is equal or greater to End frame"
          else
            Except.ok (bf, ef, true)
  else
    if range_exit_check bf ef then
      Except.error "Stop Signalled: Beginning frame is equal or greater to End frame"
    else
      Except.ok (bf, ef, false)

/-! ### Decimal round trip

`checkpoint_write` stores `Int.repr frame`; `checkpoint_frame` reads it back
through `pyint`. The lemmas below show the round trip is exact on the
non-negative frame numbers the scan produces. -/

theorem digitChar_isDigit {m : Nat} (h : m < 10) :
    (Nat.digitChar m).isDigit = true := by
  interval_cases m <;> decide

theorem digitChar_val {m : Nat} (h : m < 10) :
    (Nat.digitChar m).toNat - 48 = m := by
  interval_cases m <;> decide

/-- Core round-trip invariant: the digit block that `Nat.toDigitsCore`
prepends parses back, shifting the accumulator by the corresponding power of
ten. -/
theorem parseNatFold_toDigitsCore :
    ∀ (fuel n : Nat) (ds : List Char) (acc : Nat), n < fuel →
      ∃ c cs k, Nat.toDigitsCore 10 fuel n ds = c :: cs ∧ c.isDigit = true ∧
        parseNatFold (c :: cs) acc = parseNatFold ds (acc * 10 ^ k + n) := by
  intro fuel
  induction fuel with
  | zero => intro n ds acc h; omega
  | succ fuel ih =>
    intro n ds acc h
    have hmod : n % 10 < 10 := Nat.mod_lt _ (by omega)
    by_cases hz : n / 10 = 0
    · refine ⟨Nat.digitChar (n % 10), ds, 1, ?_, digitChar_isDigit hmod, ?_⟩
      · show Nat.toDigitsCore 10 (fuel + 1) n ds = _
        unfold Nat.toDigitsCore
        simp [hz]
      · have hn : n % 10 = n := by omega
        have hn10 : n < 10 := by omega
        simp [parseNatFold, hn, digitChar_isDigit hn10, digitChar_val hn10]
    · have hlt : n / 10 < fuel := by
        have h1 : n / 10 < n := Nat.div_lt_self (by omega) (by omega)
        omega
      obtain ⟨c, cs, k, heq, hdig, hparse⟩ :=
        ih (n / 10) (Nat.digitChar (n % 10) :: ds) acc hlt
      refine ⟨c, cs, k + 1, ?_, hdig, ?_⟩
      · show Nat.toDigitsCore 10 (fuel + 1) n ds = _
        unfold Nat.toDigitsCore
        simp [hz, heq]
      · rw [hparse]
        simp only [parseNatFold, digitChar_isDigit hmod, if_pos,
          digitChar_val hmod]
        congr 1
        have h1 : (acc * 10 ^ k + n / 10) * 10 + n % 10 =
            acc * (10 ^ k * 10) + (n / 10 * 10 + n % 10) := by ring
        have h2 : n / 10 * 10 + n % 10 = n := by omega
        rw [h1, h2, pow_succ]

/-- The numeral printed for a natural number parses back to that number. -/
theorem pyint_natRepr (P : Nat) : pyint (Nat.repr P) = some (P : Int) := by
  obtain ⟨c, cs, k, heq, hdig, hparse⟩ :=
    parseNatFold_toDigitsCore (P + 1) P [] 0 (Nat.lt_succ_self P)
  have hdata : (Nat.repr P).data = c :: cs := by
    show (List.asString (Nat.toDigits 10 P)).data = c :: cs
    rw [show Nat.toDigits 10 P = Nat.toDigitsCore 10 (P + 1) P [] from rfl, heq]
    rfl
  have hne : c ≠ '-' := by
    intro hc
    rw [hc] at hdig
    exact absurd hdig (by decide)
  have hval : parseNatFold (c :: cs) 0 = some P := by
    rw [hparse]
    simp [parseNatFold]
  unfold pyint
  rw [hdata]
  simp [hne, hval]

theorem pyint_checkpoint_write (P : Nat) :
    pyint (checkpoint_write (P : Int)) = some (P : Int) := by
  have : checkpoint_write (P : Int) = Nat.repr P := rfl
  rw [this, pyint_natRepr]

/-- Helper: every successful load leaves `endFrame` unset — the source never
assigns `ef` (trajCheckpoint.py:33 sets it to `None`, no later write). -/
theorem checkpoint_frame_ef_unset (oe : Bool) (cl : Option (List String))
    (r : Option Int × Option Int × Bool)
    (h : checkpoint_frame oe cl = Except.ok r) : r.2.1 = none := by
  unfold checkpoint_frame at h
  cases oe with
  | false =>
    simp [range_exit_check] at h
    rw [← h]
  | true =>
    cases cl with
    | none => simp at h
    | some lines =>
      cases lines with
      | nil => simp at h
      | cons l rest =>
        simp only at h
        cases hp : pyint l with
        | none => rw [hp] at h; simp at h
        | some v =>
          rw [hp] at h
          simp [range_exit_check] at h
          rw [← h]

/-- C1: checkpoint round-trip / resume correctness. If position `P ≥ 0` was
committed by `checkpoint_write` and the task's output artifact exists, the
next `checkpoint_frame` load computes `beginFrame = P + 1`, leaves `endFrame`
unset and reports `outputExists = true`. -/
theorem checkpoint_roundtrip (P : Nat) :
    checkpoint_frame true (some [checkpoint_write (P : Int)]) =
      Except.ok (some ((P : Int) + 1), none, true) := by
  unfold checkpoint_frame
  simp [pyint_checkpoint_write, range_exit_check]

/-- C7: fresh-task load. When the output artifact does not exist,
`checkpoint_frame` returns unset `beginFrame`, unset `endFrame` and
`outputExists = false`, for every possible checkpoint-file state — the
checkpoint file is not consulted at all. -/
theorem checkpoint_frame_fresh (cptLines : Option (List String)) :
    checkpoint_frame false cptLines = Except.ok (none, none, false) := rfl

/-- C8: fatal invalid-range check. The abort guard of trajCheckpoint.py:67-68
signals program exit exactly when both `beginFrame` and `endFrame` are set and
`beginFrame >= endFrame`; whenever it fires, `checkpoint_frame` aborts the
whole program (`sys.exit`) instead of returning a result. -/
theorem range_exit_iff (bf ef : Option Int) :
    range_exit_check bf ef = true ↔
      ∃ b e, bf = some b ∧ ef = some e ∧ e ≤ b := by
  cases bf with
  | none => simp [range_exit_check]
  | some b =>
    cases ef with
    | none => simp [range_exit_check]
    | some e => simp [range_exit_check]

/-! ### main.py — recipe (Task) -/

/-- Resume state of a `recipe` (main.py:191-206): `bf`/`on` as set by
`cpt_load` and the `on=False` constructor default. The analysis-specific
fields are opaque to the core and omitted; `ef` is carried by the coordinator
(`restaurant.e`), not per recipe, and never leaves `None`. -/
structure Recipe where
  bf : Option Int
  «on» : Bool
deriving Repr, DecidableEq

/-- Observable events of a pass, in program order: `proc frame time` is the
invocation of the user-supplied per-unit callable (`loopcode`), `commit frame`
is the checkpoint write `cpt_out(frame)`, `fin` is the post-loop hook
invocation (`runafterloop`). -/
inductive Ev where
  | proc : Int → Int → Ev
  | commit : Int → Ev
  | fin : Ev
deriving Repr, DecidableEq

/-- `recipe.runinloop` (main.py:222-228): run `func(frame, time)`, then write
the checkpoint. The user callable may raise (`Except.error`); the result
records the propagated outcome, the event trace, and the checkpoint-file
content after the call (input `cpt` = content before). -/
def runinloop {ε : Type} (frame time : Int) (func : Int → Int → Except ε Unit)
    (cpt : String) : Except ε Unit × List Ev × String :=
  match func frame time with
  | Except.ok _ =>
      (Except.ok (), [Ev.proc frame time, Ev.commit frame], checkpoint_write frame)
  | Except.error e => (Except.error e, [Ev.proc frame time], cpt)

/-! ### main.py — menu (TaskRegistry)

`menu.d` is a Python dict from name to recipe; it is modelled as an
association list whose order is the (stable) dict iteration order. -/

/-- Python-2 evaluation of `self.d[name].bf >= nframes` (main.py:165): in
Python 2, `None` compares strictly below every integer, so an unset `bf` is
never `>=` the frame count. -/
def py_bf_ge (bf : Option Int) (n : Int) : Bool :=
  match bf with
  | none => false
  | some b => n ≤ b

/-- Python-2 evaluation of `bf < nframes`: the complement of `py_bf_ge` in the
total Python-2 order (an unset `bf` is below every integer). -/
def py_bf_lt (bf : Option Int) (n : Int) : Bool :=
  match bf with
  | none => true
  | some b => b < n

/-- `menu.check_cases` (main.py:153-176): collect every recipe whose `bf >=
nframes`, remove them, and if no recipe is left call
`sys.exit("Exit Signalled: ...")` (modelled as `Except.error`). -/
def check_cases (reg : List (String × Recipe)) (nframes : Int) :
    Except String (List (String × Recipe)) :=
  if (reg.filter (fun p => ! py_bf_ge p.2.bf nframes)).isEmpty then
    Except.error "Exit Signalled: There are zero analyses that may run."
  else
    Except.ok (reg.filter (fun p => ! py_bf_ge p.2.bf nframes))

/-- Python-2 `<` on the values `bf` takes (`None` or `int`): `None` is
strictly below every integer and not below itself. -/
def py2lt : Option Int → Option Int → Bool
  | none, none => false
  | none, some _ => true
  | some _, none => false
  | some a, some b => a < b

/-- One step of Python's `min` scan: keep the current minimum unless the next
element is strictly smaller (so `min` returns the first of equal elements). -/
def pymin2 (acc x : Option Int) : Option Int := if py2lt x acc then x else acc

/-- `menu.min_beg_frame` (main.py:178-189): build `bf_list` in registry order
and return `min(bf_list)` under the Python-2 order; on an empty registry the
source returns a string instead of a pair (modelled as `none`). -/
def min_beg_frame (reg : List (String × Recipe)) : Option (Option Int) :=
  match reg.map (fun p => p.2.bf) with
  | [] => none
  | b :: bs => some (bs.foldl pymin2 b)

/-! ### main.py — restaurant.serve (PassCoordinator) -/

/-- Frame normalization of main.py:282,
`frame = ts.frame if ts.frame > 0 else None`: the scan's first position 0 is
represented as `None` when matched against `bf`. -/
def normFrame (f : Nat) : Option Int :=
  if (f : Int) > 0 then some (f : Int) else none

/-- Activation check of main.py:285, `if a.bf == frame: a.on = True`, for one
recipe at visited position `f`. -/
def stepRecipe (f : Nat) (r : Recipe) : Recipe :=
  if r.bf == normFrame f then { r with «on» := true } else r

/-- Dispatch of main.py:285-286 for one recipe at position `f`: after the
activation check, an active recipe runs `runinloop(ts.frame, ts.time,
loopcode)` — one `proc` then one `commit`, with the raw `ts.frame` (not the
normalized one). The loop-level model takes the success path of `runinloop`;
failure propagation is studied on `runinloop` itself. -/
def recipeEvents (timeOf : Nat → Int) (f : Nat) (nm : String) (r : Recipe) :
    List (String × Ev) :=
  if (stepRecipe f r).«on» then
    [(nm, Ev.proc (f : Int) (timeOf f)), (nm, Ev.commit (f : Int))]
  else []

/-- Inner loop of main.py:284-286: one visited position, all recipes in
registry order. -/
def serveFrame (timeOf : Nat → Int) (f : Nat)
    (reg : List (String × Recipe)) :
    List (String × Recipe) × List (String × Ev) :=
  (reg.map (fun p => (p.1, stepRecipe f p.2)),
   (reg.map (fun p => recipeEvents timeOf f p.1 p.2)).flatten)

/-- Scanning loop of main.py:278-286 over the list of visited positions. -/
def serveLoop (timeOf : Nat → Int) :
    List Nat → List (String × Recipe) →
      List (String × Recipe) × List (String × Ev)
  | [], reg => (reg, [])
  | f :: fs, reg =>
    let step := serveFrame timeOf f reg
    let rest := serveLoop timeOf fs step.1
    (rest.1, step.2 ++ rest.2)

/-- Python slice-start semantics of `trajectory[b:None]` for a dataset of `n`
frames: `None` starts at 0, a non-negative start is clamped to `n`, a negative
start counts from the end (clamped at 0). -/
def sliceStart : Option Int → Nat → Nat
  | none, _ => 0
  | some k, n => if 0 ≤ k then min k.toNat n else n - (-k).toNat

/-- `restaurant.serve` (main.py:264-291): validate the registry
(`check_cases`, which may terminate the process), compute the global start
`b = min_beg_frame()`, scan `trajectory[b:None]` dispatching every active
recipe, then run `runafterloop` for every recipe in registry order. The
result is the full event trace; `timeOf` abstracts `ts.time`. -/
def serve (timeOf : Nat → Int) (reg : List (String × Recipe)) (nframes : Nat) :
    Except String (List (String × Ev)) := do
  let reg' ← check_cases reg (nframes : Int)
  match min_beg_frame reg' with
  | none =>
    Except.error "TypeError: unpacking a string"
  | some b =>
    let s := sliceStart b nframes
    let looped := serveLoop timeOf (List.range' s (nframes - s)) reg'
    Except.ok (looped.2 ++ looped.1.map (fun p => (p.1, Ev.fin)))

/-! ### Processing/checkpoint atomicity -/

/-- C2: processing/checkpoint atomicity. In every `runinloop` call the user
callable is invoked first; if it returns, exactly one checkpoint commit
follows immediately and the checkpoint file now holds the processed frame; if
it raises, the error propagates, no commit event occurs and the checkpoint
content is unchanged. -/
theorem runinloop_atomic {ε : Type} (frame time : Int)
    (func : Int → Int → Except ε Unit) (cpt : String) :
    (∀ u, func frame time = Except.ok u →
      runinloop frame time func cpt =
        (Except.ok (), [Ev.proc frame time, Ev.commit frame],
          checkpoint_write frame)) ∧
    (∀ e, func frame time = Except.error e →
      runinloop frame time func cpt =
        (Except.error e, [Ev.proc frame time], cpt)) := by
  constructor <;> intro x hx <;> simp [runinloop, hx]

theorem runinloop_atomic_witness :
    runinloop 3 4 (fun _ _ => (Except.ok () : Except String Unit)) "2" =
      (Except.ok (), [Ev.proc 3 4, Ev.commit 3], checkpoint_write 3) ∧
    runinloop 3 4 (fun _ _ => (Except.error "boom" : Except String Unit)) "2" =
      (Except.error "boom", [Ev.proc 3 4], "2") :=
  ⟨(runinloop_atomic 3 4 _ "2").1 () rfl,
   (runinloop_atomic 3 4 _ "2").2 "boom" rfl⟩

/-! ### Activation timing -/

/-- Activation state consulted at main.py:286: the value of `a.on` while the
scan, having started at position `s`, handles visited position `f` — i.e.
after the activation checks of positions `s, …, f`. -/
def activeAt (s : Nat) (r : Recipe) (f : Nat) : Bool :=
  (stepRecipe f ((List.range' s (f - s)).foldl (fun a g => stepRecipe g a) r)).«on»

theorem stepRecipe_bf (f : Nat) (r : Recipe) : (stepRecipe f r).bf = r.bf := by
  unfold stepRecipe
  split <;> rfl

theorem stepRecipe_on (f : Nat) (r : Recipe) :
    (stepRecipe f r).«on» = (r.«on» || (r.bf == normFrame f)) := by
  unfold stepRecipe
  cases hb : (r.bf == normFrame f) <;> simp [hb]

theorem foldl_stepRecipe_bf (L : List Nat) (r : Recipe) :
    (L.foldl (fun a g => stepRecipe g a) r).bf = r.bf := by
  induction L generalizing r with
  | nil => rfl
  | cons f fs ih => rw [List.foldl_cons, ih, stepRecipe_bf]

theorem foldl_stepRecipe_on (L : List Nat) (r : Recipe) :
    (L.foldl (fun a g => stepRecipe g a) r).«on» =
      (r.«on» || L.any (fun g => r.bf == normFrame g)) := by
  induction L generalizing r with
  | nil => simp
  | cons f fs ih =>
    rw [List.foldl_cons, ih, stepRecipe_on, stepRecipe_bf, List.any_cons,
      Bool.or_assoc]

theorem beq_normFrame_some (K g : Nat) (hK : 1 ≤ K) :
    (some (K : Int) == normFrame g) = (g == K) := by
  unfold normFrame
  by_cases hg : 0 < g
  · rw [if_pos (by exact_mod_cast hg)]
    show ((K : Int) == (g : Int)) = (g == K)
    by_cases he : g = K
    · simp [he]
    · have h2 : (K : Int) ≠ (g : Int) := by
        intro hc
        exact he (by exact_mod_cast hc.symm)
      simp [he, h2]
  · have hg0 : g = 0 := by omega
    subst hg0
    rw [if_neg (by omega)]
    show false = ((0 : Nat) == K)
    symm
    simp
    omega

theorem beq_normFrame_none (g : Nat) :
    ((none : Option Int) == normFrame g) = (g == 0) := by
  unfold normFrame
  by_cases hg : 0 < g
  · rw [if_pos (by exact_mod_cast hg)]
    show false = ((g : Nat) == 0)
    symm
    simp
    omega
  · have hg0 : g = 0 := by omega
    subst hg0
    rw [if_neg (by omega)]
    rfl

/-- C3: activation timing. A task that starts the pass inactive, with
`beginFrame = K` — either a loaded value `some K` (which the data model makes
≥ 1, being a checkpoint position plus one) or unset, standing for position 0
via the null-frame convention of main.py:282 — is inactive at every visited
position < K, becomes active exactly when the scan (started at `s ≤ K`)
reaches position K, and stays active at all later positions. -/
theorem activation_timing (s K f : Nat) (r : Recipe) (h0 : r.«on» = false)
    (hbf : r.bf = some (K : Int) ∧ 1 ≤ K ∨ r.bf = none ∧ K = 0)
    (hsK : s ≤ K) (hsf : s ≤ f) :
    activeAt s r f = decide (K ≤ f) := by
  unfold activeAt
  rw [stepRecipe_on, foldl_stepRecipe_on, foldl_stepRecipe_bf, h0,
    Bool.false_or]
  have key : ∀ g : Nat, (r.bf == normFrame g) = (g == K) := by
    intro g
    rcases hbf with ⟨hb, hK⟩ | ⟨hb, hK⟩
    · rw [hb, beq_normFrame_some K g hK]
    · rw [hb, hK, beq_normFrame_none g]
  simp only [key]
  rw [Bool.eq_iff_iff]
  simp only [Bool.or_eq_true, List.any_eq_true, beq_iff_eq,
    decide_eq_true_eq]
  constructor
  · rintro (⟨g, hg, rfl⟩ | rfl)
    · have := List.mem_range'_1.mp hg
      omega
    · omega
  · intro hKf
    by_cases he : f = K
    · right
      exact he
    · left
      exact ⟨K, List.mem_range'_1.mpr ⟨hsK, by omega⟩, rfl⟩

theorem activation_timing_witness :
    activeAt 1 ⟨some 2, false⟩ 1 = false ∧
      activeAt 1 ⟨some 2, false⟩ 2 = true ∧
      activeAt 1 ⟨some 2, false⟩ 3 = true := by
  refine ⟨?_, ?_, ?_⟩ <;>
    rw [activation_timing 1 2 _ _ rfl (Or.inl ⟨rfl, by omega⟩) (by omega)
      (by omega)] <;> decide

/-! ### Eviction correctness and empty-registry termination -/

/-- C4: eviction correctness. When validation returns (rather than
terminating the run), every task whose `beginFrame >= totalUnits` — in the
source's own Python-2 comparison, under which an unset `beginFrame` is below
every integer — is absent from the resulting registry, and every remaining
task satisfies `beginFrame < totalUnits` in that same order. -/
theorem eviction_correct (reg : List (String × Recipe)) (nframes : Int)
    (reg' : List (String × Recipe))
    (h : check_cases reg nframes = Except.ok reg') :
    (∀ p ∈ reg, py_bf_ge p.2.bf nframes = true → p ∉ reg') ∧
    (∀ p ∈ reg', py_bf_lt p.2.bf nframes = true) := by
  unfold check_cases at h
  split at h
  · exact absurd h (by simp)
  · injection h with h
    subst h
    constructor
    · intro p hp hge hmem
      have hf := (List.mem_filter.mp hmem).2
      rw [hge] at hf
      simp at hf
    · intro p hp
      have hf := (List.mem_filter.mp hp).2
      cases hb : p.2.bf with
      | none => rfl
      | some b =>
        rw [hb] at hf
        simp only [py_bf_ge, Bool.not_eq_eq_eq_not, Bool.not_true,
          decide_eq_false_iff_not, not_le] at hf
        simp [py_bf_lt, hf]

theorem eviction_correct_witness :
    (("a", (⟨some 5, false⟩ : Recipe)) ∉ [("b", (⟨none, false⟩ : Recipe))]) ∧
      py_bf_lt (none : Option Int) 3 = true := by
  obtain ⟨h1, h2⟩ :=
    eviction_correct [("a", ⟨some 5, false⟩), ("b", ⟨none, false⟩)] 3
      [("b", ⟨none, false⟩)] rfl
  exact ⟨h1 ("a", ⟨some 5, false⟩) (by simp) (by decide),
    h2 ("b", ⟨none, false⟩) (by simp)⟩

/-- C5: empty-registry termination. If validation evicts every task — every
registered task has `beginFrame >= totalUnits` — the whole run terminates
with the fatal exit signal before the dataset traversal begins: `serve`
produces the `sys.exit` outcome and an empty event trace, so no per-unit
callable (`proc` event) is ever invoked. -/
theorem empty_registry_no_pass (timeOf : Nat → Int)
    (reg : List (String × Recipe)) (nframes : Nat)
    (h : ∀ p ∈ reg, py_bf_ge p.2.bf (nframes : Int) = true) :
    serve timeOf reg nframes =
      Except.error "Exit Signalled: There are zero analyses that may run." := by
  have hfilter : reg.filter (fun p => ! py_bf_ge p.2.bf (nframes : Int)) = [] := by
    rw [List.filter_eq_nil_iff]
    intro p hp
    simp [h p hp]
  unfold serve check_cases
  rw [hfilter]
  rfl

theorem empty_registry_no_pass_witness :
    serve (fun _ => 0) [("a", ⟨some 5, false⟩)] 3 =
      Except.error "Exit Signalled: There are zero analyses that may run." := by
  apply empty_registry_no_pass
  intro p hp
  simp at hp
  subst hp
  rfl

/-- C10: validation never evicts a fresh task. For every `totalUnits`,
including 0, a task with unset `beginFrame` survives `check_cases` — in
Python 2 `None >= nframes` is always false — and validation then returns
normally (the registry cannot be empty, it still holds that task). -/
theorem fresh_never_evicted (reg : List (String × Recipe)) (nframes : Int)
    (p : String × Recipe) (hp : p ∈ reg) (hbf : p.2.bf = none) :
    ∃ reg', check_cases reg nframes = Except.ok reg' ∧ p ∈ reg' := by
  have hem : p ∈ reg.filter (fun q => ! py_bf_ge q.2.bf nframes) := by
    rw [List.mem_filter]
    exact ⟨hp, by simp [hbf, py_bf_ge]⟩
  refine ⟨_, ?_, hem⟩
  unfold check_cases
  rw [if_neg]
  intro hcon
  rw [List.isEmpty_iff] at hcon
  rw [hcon] at hem
  simp at hem

theorem fresh_never_evicted_witness :
    ∃ reg', check_cases [("a", (⟨none, false⟩ : Recipe))] 0 = Except.ok reg' ∧
      ("a", (⟨none, false⟩ : Recipe)) ∈ reg' :=
  fresh_never_evicted [("a", ⟨none, false⟩)] 0 ("a", ⟨none, false⟩)
    (by simp) rfl

/-! ### Global minimum boundary -/

theorem pymin2_getD (a x : Option Int) (ha : ∀ v, a = some v → 0 ≤ v)
    (hx : ∀ v, x = some v → 0 ≤ v) :
    (pymin2 a x).getD 0 = min (a.getD 0) (x.getD 0) := by
  cases a with
  | none =>
    cases x with
    | none => rfl
    | some b =>
      have hb := hx b rfl
      simp [pymin2, py2lt]
      omega
  | some b =>
    have hb := ha b rfl
    cases x with
    | none =>
      simp [pymin2, py2lt]
      omega
    | some c =>
      simp only [pymin2, py2lt]
      by_cases hlt : c < b
      · simp [hlt]
        omega
      · simp [hlt]
        omega

theorem pymin2_cases (a x : Option Int) : pymin2 a x = a ∨ pymin2 a x = x := by
  unfold pymin2
  split
  · right
    rfl
  · left
    rfl

theorem foldl_pymin2_getD (bs : List (Option Int)) (b : Option Int)
    (hb : ∀ v, b = some v → 0 ≤ v)
    (hbs : ∀ o ∈ bs, ∀ v, o = some v → 0 ≤ v) :
    (bs.foldl pymin2 b).getD 0 =
      (bs.map (fun o => o.getD 0)).foldl min (b.getD 0) := by
  induction bs generalizing b with
  | nil => rfl
  | cons x xs ih =>
    rw [List.foldl_cons, List.map_cons, List.foldl_cons,
      ← pymin2_getD b x hb (hbs x (by simp))]
    apply ih
    · rcases pymin2_cases b x with heq | heq <;> rw [heq]
      · exact hb
      · exact hbs x (by simp)
    · intro o ho
      exact hbs o (by simp [ho])

/-- C6: global minimum boundary. On a non-empty registry whose set
`beginFrame`s are non-negative (they are checkpoint positions plus one),
`min_beg_frame` computes the minimum `beginFrame` across all tasks with an
unset `beginFrame` standing for 0: reading `None` as start-of-dataset (0),
the returned value is exactly the minimum of the tasks' effective start
positions. The source takes `min` under the Python-2 order, where `None` sits
below every integer. -/
theorem min_beg_frame_correct (reg : List (String × Recipe)) (hne : reg ≠ [])
    (hnn : ∀ p ∈ reg, ∀ b, p.2.bf = some b → 0 ≤ b) :
    (min_beg_frame reg).map (fun o => o.getD 0) =
      (reg.map (fun p => p.2.bf.getD 0)).min? := by
  cases reg with
  | nil => exact absurd rfl hne
  | cons p ps =>
    show (some ((List.map (fun q => q.2.bf) ps).foldl pymin2 p.2.bf)).map
        (fun o => o.getD 0) = _
    rw [Option.map_some', List.map_cons, List.min?_cons']
    have hmaps : List.map (fun o => o.getD 0) (List.map (fun q => q.2.bf) ps) =
        List.map (fun q => q.2.bf.getD 0) ps := by
      rw [List.map_map]
      rfl
    rw [foldl_pymin2_getD _ _ (hnn p (by simp)) ?_, hmaps]
    intro o ho v hv
    rw [List.mem_map] at ho
    obtain ⟨q, hq, rfl⟩ := ho
    exact hnn q (by simp [hq]) v hv

theorem min_beg_frame_correct_witness :
    (min_beg_frame [("a", ⟨none, false⟩), ("b", ⟨some 5, false⟩)]).map
        (fun o => o.getD 0) =
      ([("a", (⟨none, false⟩ : Recipe)), ("b", ⟨some 5, false⟩)].map
        (fun p => p.2.bf.getD 0)).min? := by
  apply min_beg_frame_correct
  · simp
  · intro p hp b hb
    simp at hp
    rcases hp with h | h
    · rw [h] at hb
      simp at hb
    · rw [h] at hb
      simp at hb
      omega

/-! ### Finalization after the pass -/

theorem serveLoop_names (timeOf : Nat → Int) (fs : List Nat)
    (reg : List (String × Recipe)) :
    (serveLoop timeOf fs reg).1.map Prod.fst = reg.map Prod.fst := by
  induction fs generalizing reg with
  | nil => rfl
  | cons f fs ih =>
    show (serveLoop timeOf fs (serveFrame timeOf f reg).1).1.map Prod.fst = _
    rw [ih]
    unfold serveFrame
    rw [List.map_map]
    rfl

theorem serveLoop_no_fin (timeOf : Nat → Int) (fs : List Nat)
    (reg : List (String × Recipe)) (nm : String) :
    (nm, Ev.fin) ∉ (serveLoop timeOf fs reg).2 := by
  induction fs generalizing reg with
  | nil => simp [serveLoop]
  | cons f fs ih =>
    show (nm, Ev.fin) ∉ (serveFrame timeOf f reg).2 ++ _
    rw [List.mem_append]
    rintro (hmem | hmem)
    · unfold serveFrame at hmem
      rw [List.mem_flatten] at hmem
      obtain ⟨l, hl, hmem⟩ := hmem
      rw [List.mem_map] at hl
      obtain ⟨p, hp, rfl⟩ := hl
      unfold recipeEvents at hmem
      split at hmem <;> simp at hmem
    · exact ih _ hmem

theorem count_fin_map (nm : String) (l : List String) :
    (l.map (fun n => (n, Ev.fin))).count (nm, Ev.fin) = l.count nm := by
  induction l with
  | nil => rfl
  | cons x xs ih =>
    rw [List.map_cons, List.count_cons, List.count_cons, ih]
    congr 1
    by_cases hx : x = nm
    · simp [hx]
    · simp [hx]

/-- C9: finalization. Whenever `serve` completes a pass, the trace splits
into the scanning-loop events followed by the finalization events: the
post-pass hook (`fin`) never occurs during the scan, and after the scan it is
invoked once per validated task, in registry iteration order — for every name
the number of `fin` events equals the number of registry entries carrying
that name (so exactly once per task, every active task included). -/
theorem finalize_after_loop (timeOf : Nat → Int)
    (reg : List (String × Recipe)) (nframes : Nat) (tr : List (String × Ev))
    (h : serve timeOf reg nframes = Except.ok tr) :
    ∃ reg' evs, check_cases reg (nframes : Int) = Except.ok reg' ∧
      tr = evs ++ reg'.map (fun p => (p.1, Ev.fin)) ∧
      (∀ nm, (nm, Ev.fin) ∉ evs) ∧
      (∀ nm, tr.count (nm, Ev.fin) = (reg'.map Prod.fst).count nm) := by
  unfold serve at h
  cases hc : check_cases reg (nframes : Int) with
  | error e =>
    rw [hc] at h
    exact absurd h (by simp [Bind.bind, Except.bind])
  | ok reg' =>
    rw [hc] at h
    simp only [Bind.bind, Except.bind] at h
    cases hm : min_beg_frame reg' with
    | none =>
      rw [hm] at h
      exact absurd h (by simp)
    | some b =>
      rw [hm] at h
      injection h with h
      set looped := serveLoop timeOf
        (List.range' (sliceStart b nframes) (nframes - sliceStart b nframes))
        reg' with hlooped
      have h2 : reg'.map (fun p => (p.1, Ev.fin)) =
          (reg'.map Prod.fst).map (fun n => (n, Ev.fin)) := by
        rw [List.map_map]
        rfl
      have hfin : looped.1.map (fun p => (p.1, Ev.fin)) =
          reg'.map (fun p => (p.1, Ev.fin)) := by
        have h1 : looped.1.map (fun p => (p.1, Ev.fin)) =
            (looped.1.map Prod.fst).map (fun n => (n, Ev.fin)) := by
          rw [List.map_map]
          rfl
        rw [h1, h2, hlooped, serveLoop_names]
      refine ⟨reg', looped.2, rfl, ?_, ?_, ?_⟩
      · rw [← h, hfin]
      · intro nm
        rw [hlooped]
        exact serveLoop_no_fin timeOf _ reg' nm
      · intro nm
        rw [← h, hfin, List.count_append]
        have hz : looped.2.count (nm, Ev.fin) = 0 := by
          rw [List.count_eq_zero]
          rw [hlooped]
          exact serveLoop_no_fin timeOf _ reg' nm
        rw [hz, Nat.zero_add, h2, count_fin_map nm]

theorem finalize_after_loop_witness :
    ∃ reg' evs,
      check_cases [("a", (⟨none, false⟩ : Recipe))] ((1 : Nat) : Int) =
        Except.ok reg' ∧
      [("a", Ev.proc 0 0), ("a", Ev.commit 0), ("a", Ev.fin)] =
        evs ++ reg'.map (fun p => (p.1, Ev.fin)) ∧
      (∀ nm, (nm, Ev.fin) ∉ evs) ∧
      (∀ nm, [("a", Ev.proc 0 0), ("a", Ev.commit 0),
        ("a", Ev.fin)].count (nm, Ev.fin) = (reg'.map Prod.fst).count nm) :=
  finalize_after_loop (fun _ => 0) [("a", ⟨none, false⟩)] 1
    [("a", Ev.proc 0 0), ("a", Ev.commit 0), ("a", Ev.fin)] rfl

end MDChef
